import Mathlib

/-!
Verification development for the OpenRouter compatibility shim
(`src/base-action/src/openrouter.ts`).

The TypeScript source is shallowly embedded: JavaScript strings are Lean
`String`s, and every string operation the source uses (`trim`, `split`,
`toLowerCase`, `indexOf`/`slice`, `startsWith`, `endsWith`) is modelled by a
structurally recursive Lean function over the character list, so that every
definition evaluates by kernel reduction.  `Map<string, T>` and plain
`Record<string, string>` objects are modelled as insertion-ordered
association lists, matching JavaScript's insertion-order iteration and
overwrite-in-place (`set` on an existing key keeps the entry's position)
semantics.
-/

namespace OpenRouter

/-- Whitespace recognised by the JavaScript `String.prototype.trim` and the
JSON grammar, restricted to the ASCII range (the only characters that occur
in this development). -/
def isJsWs (c : Char) : Bool :=
  c = ' ' || c = '\t' || c = '\n' || c = '\r' || c = '\x0b' || c = '\x0c'

/-- Drop leading JS whitespace from a character list. -/
def dropWsLead : List Char → List Char
  | [] => []
  | c :: cs => if isJsWs c then dropWsLead cs else c :: cs

/-- Model of `raw.trim()`. -/
def jsTrim (s : String) : String :=
  String.mk ((dropWsLead ((dropWsLead s.toList).reverse)).reverse)

/-- Model of `s.toLowerCase()` (ASCII). -/
def jsToLower (s : String) : String :=
  String.mk (s.toList.map Char.toLower)

/-- Split a character list at every occurrence of the separator character,
keeping empty segments (the semantics of `String.prototype.split`). -/
def splitOnChar (d : Char) : List Char → List (List Char)
  | [] => [[]]
  | c :: cs =>
    let r := splitOnChar d cs
    if c = d then [] :: r
    else
      match r with
      | [] => [[c]]
      | h :: t => (c :: h) :: t

/-- Model of `raw.split(/\r?\n/)`: split at newline characters.  A `\r`
immediately preceding the `\n` ends up trailing its segment and is removed by
the `trim` that the source applies to every line, so splitting on `'\n'`
alone is extensionally faithful for the trimmed pipeline. -/
def jsSplitNewline (s : String) : List String :=
  (splitOnChar '\n' s.toList).map String.mk

/-- Split at every newline or comma, the model of `raw.split(/[\n,]/)`. -/
def jsSplitNewlineOrComma (s : String) : List String :=
  ((splitOnChar '\n' s.toList).foldr (fun seg acc => splitOnChar ',' seg ++ acc) []).map
    String.mk

/-- `line.indexOf(":")` followed by the two `slice`s of the source: `none`
when the line has no colon, otherwise the text before and after the first
colon. -/
def splitAtFirstColon : List Char → Option (List Char × List Char)
  | [] => none
  | c :: cs =>
    if c = ':' then some ([], cs)
    else
      match splitAtFirstColon cs with
      | none => none
      | some (a, b) => some (c :: a, b)

/-- Does `pat` occur at the head of `l`? -/
def listHasLead : List Char → List Char → Bool
  | [], _ => true
  | _ :: _, [] => false
  | p :: ps, c :: cs => p = c && listHasLead ps cs

/-- Model of `s.startsWith(pat)`. -/
def strHasLead (s pat : String) : Bool :=
  listHasLead pat.toList s.toList

/-- Model of `s.endsWith(pat)`. -/
def strHasTail (s pat : String) : Bool :=
  listHasLead pat.toList.reverse s.toList.reverse

/-- Does `pat` occur contiguously anywhere in `l`? (Used to inspect the
generated configuration text.) -/
def listHasSub (pat : List Char) : List Char → Bool
  | [] => listHasLead pat []
  | c :: cs => listHasLead pat (c :: cs) || listHasSub pat cs

/-- Model of `s.includes(pat)`. -/
def strHasSub (s pat : String) : Bool :=
  listHasSub pat.toList s.toList

/-- `Array.prototype.join(sep)`. -/
def joinSep (sep : String) : List String → String
  | [] => ""
  | [x] => x
  | x :: y :: t => x ++ sep ++ joinSep sep (y :: t)

/-- Decimal digits of a natural number (fuel-based so that it reduces in the
kernel). -/
def natDigitsAux : Nat → Nat → List Char
  | 0, _ => []
  | fuel + 1, n =>
    if n < 10 then [Char.ofNat (48 + n)]
    else natDigitsAux fuel (n / 10) ++ [Char.ofNat (48 + n % 10)]

/-- Model of `n.toString()` for a nonnegative integer. -/
def natToStr (n : Nat) : String :=
  String.mk (natDigitsAux (n + 1) n)

/-! ### Model of the JavaScript `JSON.parse` builtin

`JSON.parse` is a platform builtin, not repository code; it is modelled here
by a small recursive-descent parser over the JSON grammar (objects, arrays,
strings with the standard escapes, number tokens, `true`/`false`/`null`),
fuel-based so that it is structurally recursive and kernel-evaluable.  Only
parse success/failure and the resulting object/array/string structure are
ever consumed by the embedded code. -/

/-- A parsed JSON value (numbers are kept as their raw token: the embedded
code only ever consumes string-valued properties). -/
inductive Js where
  | null : Js
  | bool (b : Bool) : Js
  | num (tok : String) : Js
  | str (s : String) : Js
  | arr (elems : List Js) : Js
  | obj (fields : List (String × Js)) : Js

/-- Hex digit value, if any. -/
def hexVal (c : Char) : Option Nat :=
  if '0' ≤ c ∧ c ≤ '9' then some (c.toNat - 48)
  else if 'a' ≤ c ∧ c ≤ 'f' then some (c.toNat - 87)
  else if 'A' ≤ c ∧ c ≤ 'F' then some (c.toNat - 55)
  else none

/-- Body of a JSON string literal (after the opening quote), with the
standard escapes.  Returns the decoded string and the remaining input. -/
def parseStrBody (acc : List Char) : List Char → Option (String × List Char)
  | [] => none
  | c :: cs =>
    if c = '"' then some (String.mk acc.reverse, cs)
    else if c = '\\' then
      match cs with
      | [] => none
      | e :: cs' =>
        if e = '"' then parseStrBody ('"' :: acc) cs'
        else if e = '\\' then parseStrBody ('\\' :: acc) cs'
        else if e = '/' then parseStrBody ('/' :: acc) cs'
        else if e = 'n' then parseStrBody ('\n' :: acc) cs'
        else if e = 't' then parseStrBody ('\t' :: acc) cs'
        else if e = 'r' then parseStrBody ('\r' :: acc) cs'
        else if e = 'b' then parseStrBody (Char.ofNat 8 :: acc) cs'
        else if e = 'f' then parseStrBody (Char.ofNat 12 :: acc) cs'
        else if e = 'u' then
          match cs' with
          | h1 :: h2 :: h3 :: h4 :: cs'' =>
            match hexVal h1, hexVal h2, hexVal h3, hexVal h4 with
            | some a, some b, some c', some d =>
              parseStrBody (Char.ofNat (a * 4096 + b * 256 + c' * 16 + d) :: acc) cs''
            | _, _, _, _ => none
          | _ => none
        else none
    else parseStrBody (c :: acc) cs

/-- Is `c` a character that may start a JSON number token? -/
def isNumStart (c : Char) : Bool :=
  c = '-' || ('0' ≤ c && c ≤ '9')

/-- Is `c` a character that may continue a JSON number token? -/
def isNumChar (c : Char) : Bool :=
  isNumStart c || c = '+' || c = '.' || c = 'e' || c = 'E'

mutual

/-- One JSON value, returning the remainder of the input. -/
def parseVal : Nat → List Char → Option (Js × List Char)
  | 0, _ => none
  | fuel + 1, cs =>
    match dropWsLead cs with
    | [] => none
    | c :: rest =>
      if c = '\x7b' then
        match dropWsLead rest with
        | '\x7d' :: rest' => some (.obj [], rest')
        | rest' =>
          match parseFields fuel rest' with
          | some (fs, rest'') => some (.obj fs, rest'')
          | none => none
      else if c = '[' then
        match dropWsLead rest with
        | ']' :: rest' => some (.arr [], rest')
        | rest' =>
          match parseItems fuel rest' with
          | some (xs, rest'') => some (.arr xs, rest'')
          | none => none
      else if c = '"' then
        match parseStrBody [] rest with
        | some (s, rest') => some (.str s, rest')
        | none => none
      else if c = 't' then
        match rest with
        | 'r' :: 'u' :: 'e' :: rest' => some (.bool true, rest')
        | _ => none
      else if c = 'f' then
        match rest with
        | 'a' :: 'l' :: 's' :: 'e' :: rest' => some (.bool false, rest')
        | _ => none
      else if c = 'n' then
        match rest with
        | 'u' :: 'l' :: 'l' :: rest' => some (.null, rest')
        | _ => none
      else if isNumStart c then
        some (.num (String.mk (c :: rest.takeWhile isNumChar)),
          rest.dropWhile isNumChar)
      else none

/-- One or more `"key": value` members of a JSON object, up to and including
the closing brace. -/
def parseFields : Nat → List Char → Option (List (String × Js) × List Char)
  | 0, _ => none
  | fuel + 1, cs =>
    match dropWsLead cs with
    | '"' :: rest =>
      match parseStrBody [] rest with
      | some (key, rest1) =>
        match dropWsLead rest1 with
        | ':' :: rest2 =>
          match parseVal fuel rest2 with
          | some (v, rest3) =>
            match dropWsLead rest3 with
            | ',' :: rest4 =>
              match parseFields fuel rest4 with
              | some (fs, rest5) => some ((key, v) :: fs, rest5)
              | none => none
            | '\x7d' :: rest4 => some ([(key, v)], rest4)
            | _ => none
          | none => none
        | _ => none
      | none => none
    | _ => none

/-- One or more elements of a JSON array, up to and including the closing
bracket. -/
def parseItems : Nat → List Char → Option (List Js × List Char)
  | 0, _ => none
  | fuel + 1, cs =>
    match parseVal fuel cs with
    | some (v, rest) =>
      match dropWsLead rest with
      | ',' :: rest' =>
        match parseItems fuel rest' with
        | some (xs, rest'') => some (v :: xs, rest'')
        | none => none
      | ']' :: rest' => some ([v], rest')
      | _ => none
    | none => none

end

/-- Model of `JSON.parse(s)`: a whole-input JSON value, or `none` where the
builtin would throw. -/
def jsonParse (s : String) : Option Js :=
  match parseVal (s.toList.length + 1) s.toList with
  | some (v, rest) => if dropWsLead rest = [] then some v else none
  | none => none

/-- Model of `Object.entries(x)` for a parsed JSON value: an object's own
properties in insertion order; an array's elements keyed by their decimal
index; a (boxed) string's characters keyed by their decimal index; no
entries for the other primitives. -/
def jsEntries : Js → List (String × Js)
  | .obj fs => fs
  | .arr xs => xs.enum.map fun p => (natToStr p.1, p.2)
  | .str s => s.toList.enum.map fun p => (natToStr p.1, .str (String.mk [p.2]))
  | _ => []

/-! ### Header directive model (`openrouter.ts` lines 5-70 and 282-318) -/

/-- `type HeaderEntry = { name: string; value: string }`. -/
structure HeaderEntry where
  name : String
  value : String
deriving DecidableEq, Repr

/-- `Map.prototype.set` semantics on an insertion-ordered association list:
overwrite in place when the key is present (keeping the entry's original
position), append otherwise. -/
def mapSet : List (String × HeaderEntry) → String → HeaderEntry →
    List (String × HeaderEntry)
  | [], k, v => [(k, v)]
  | (k', v') :: rest, k, v =>
    if k' = k then (k, v) :: rest else (k', v') :: mapSet rest k v

/-- `Map.prototype.get` on the association-list model. -/
def mapLookup : List (String × HeaderEntry) → String → Option HeaderEntry
  | [], _ => none
  | (k', v') :: rest, k => if k' = k then some v' else mapLookup rest k

/-- Keys of a header map, in order. -/
def mapKeys (m : List (String × HeaderEntry)) : List String :=
  m.map Prod.fst

/-- The invariant maintained by the Map-version parser: pairwise-distinct
keys, each key being the lower-cased name of its entry. -/
def MapInv (m : List (String × HeaderEntry)) : Prop :=
  (mapKeys m).Nodup ∧ ∀ p ∈ m, p.1 = jsToLower p.2.name

/-- `setHeader(headers, name, value)` (`openrouter.ts` lines 58-64). -/
def setHeader (headers : List (String × HeaderEntry)) (name value : String) :
    List (String × HeaderEntry) :=
  mapSet headers (jsToLower name) ⟨name, value⟩

/-- `serializeHeaders(headers)` (`openrouter.ts` lines 66-70). -/
def serializeHeaders (headers : List (String × HeaderEntry)) : String :=
  joinSep "\n" (headers.map fun p => p.2.name ++ ": " ++ p.2.value)

/-- The line-by-line branch shared by `parseHeaderLines` (Map version,
`openrouter.ts` lines 35-53): split at newlines, trim, drop blank lines,
split each line at its first colon, drop lines with no colon or an empty
trimmed name or value, and `set` the entry keyed by the lower-cased name. -/
def lineParseMap (t : String) : List (String × HeaderEntry) :=
  let lines := ((jsSplitNewline t).map jsTrim).filter fun l => l.toList.length > 0
  lines.foldl
    (fun m line =>
      match splitAtFirstColon line.toList with
      | none => m
      | some (a, b) =>
        let name := jsTrim (String.mk a)
        let value := jsTrim (String.mk b)
        if name.toList.length = 0 ∨ value.toList.length = 0 then m
        else mapSet m (jsToLower name) ⟨name, value⟩)
    []

/-- The JSON branch of `parseHeaderLines` (Map version, `openrouter.ts`
lines 23-28): every string-valued property whose key has nonempty trim is
`set` keyed by the lower-cased (untrimmed) name, with the value trimmed. -/
def jsonBranchMap (v : Js) : List (String × HeaderEntry) :=
  (jsEntries v).foldl
    (fun m p =>
      match p.2 with
      | .str s =>
        if (jsTrim p.1).toList.length > 0 then
          mapSet m (jsToLower p.1) ⟨p.1, jsTrim s⟩
        else m
      | _ => m)
    []

/-- `parseHeaderLines` — the Map version used by the orchestrator
(`openrouter.ts` lines 10-56).  The JSON parse is attempted only when the
trimmed input starts with `{` and ends with `}`; on JSON failure it falls
through to line parsing. -/
def parseHeaderLinesMap (raw : Option String) : List (String × HeaderEntry) :=
  match raw with
  | none => []
  | some r =>
    if r = "" then []
    else
      let t := jsTrim r
      if t.toList.length = 0 then []
      else if strHasLead t "\x7b" && strHasTail t "\x7d" then
        match jsonParse t with
        | some v => jsonBranchMap v
        | none => lineParseMap t
      else lineParseMap t

/-- Property assignment `rec[key] = value` on a `Record<string, string>`
modelled as an insertion-ordered association list: overwrite in place when
the key is present, append otherwise. -/
def recordSet : List (String × String) → String → String → List (String × String)
  | [], k, v => [(k, v)]
  | (k', v') :: rest, k, v =>
    if k' = k then (k, v) :: rest else (k', v') :: recordSet rest k v

/-- Keys of a record, in order. -/
def recordKeys (m : List (String × String)) : List String :=
  m.map Prod.fst

/-- The line-by-line branch of `parseHeaderLines` (Record version,
`openrouter.ts` lines 305-317): keys are the trimmed names, not lower-cased. -/
def lineParseRecord (t : String) : List (String × String) :=
  (jsSplitNewline t).foldl
    (fun m rawLine =>
      let line := jsTrim rawLine
      if line.toList.length = 0 then m
      else
        match splitAtFirstColon line.toList with
        | none => m
        | some (a, b) =>
          let name := jsTrim (String.mk a)
          let value := jsTrim (String.mk b)
          if name.toList.length = 0 ∨ value.toList.length = 0 then m
          else recordSet m name value)
    []

/-- The JSON branch of `parseHeaderLines` (Record version, `openrouter.ts`
lines 293-300): every string-valued property whose key has nonempty trim is
stored under the trimmed key with the trimmed value. -/
def jsonBranchRecord (v : Js) : List (String × String) :=
  (jsEntries v).foldl
    (fun m p =>
      match p.2 with
      | .str s =>
        if (jsTrim p.1).toList.length > 0 then recordSet m (jsTrim p.1) (jsTrim s)
        else m
      | _ => m)
    []

/-- `parseHeaderLines` — the Record version used by the proxy supervisor
(`openrouter.ts` lines 282-318).  Unlike the Map version it attempts
`JSON.parse` on every nonempty trimmed input (there is no brace check), and
it does not lower-case keys. -/
def parseHeaderLinesRecord (raw : Option String) : List (String × String) :=
  match raw with
  | none => []
  | some r =>
    if r = "" then []
    else
      let t := jsTrim r
      if t.toList.length = 0 then []
      else
        match jsonParse t with
        | some v => jsonBranchRecord v
        | none => lineParseRecord t

/-- `parseAdditionalModels` (`openrouter.ts` lines 87-95). -/
def parseAdditionalModels (raw : Option String) : List String :=
  match raw with
  | none => []
  | some r =>
    if r = "" then []
    else ((jsSplitNewlineOrComma r).map jsTrim).filter fun v => v.toList.length > 0

/-! ### Direct mode of `configureOpenRouterEnvironment`
(`openrouter.ts` lines 144-171) -/

/-- `value?.trim()` followed by a JS truthiness test: `none` when the input
is absent or trims to the empty string, otherwise the trimmed value. -/
def trimToOpt (s : Option String) : Option String :=
  match s with
  | none => none
  | some v => if (jsTrim v).toList.length = 0 then none else some (jsTrim v)

/-- The header merge of the direct (proxy-disabled) branch of
`configureOpenRouterEnvironment` (`openrouter.ts` lines 149-166): parse the
pre-existing custom headers, inject `Authorization: Bearer <key>`, set the
optional referer and title, then overlay every extra-header entry. -/
def directModeHeaders (custom : Option String) (key : String)
    (siteUrl appTitle extra : Option String) : List (String × HeaderEntry) :=
  let headers := parseHeaderLinesMap custom
  let headers := setHeader headers "Authorization" ("Bearer " ++ key)
  let headers :=
    match trimToOpt siteUrl with
    | some referer => setHeader headers "HTTP-Referer" referer
    | none => headers
  let headers :=
    match trimToOpt appTitle with
    | some title => setHeader headers "X-Title" title
    | none => headers
  let extraHeaders := parseHeaderLinesMap extra
  extraHeaders.foldl (fun m p => mapSet m p.1 p.2) headers

/-- The serialized `ANTHROPIC_CUSTOM_HEADERS` value written back by the
direct branch (`openrouter.ts` line 167). -/
def directModeHeaderString (custom : Option String) (key : String)
    (siteUrl appTitle extra : Option String) : String :=
  serializeHeaders (directModeHeaders custom key siteUrl appTitle extra)

/-! ### Model-set synthesis (`openrouter.ts` lines 213-220 and 366-373) -/

/-- `DEFAULT_MODELS` (`openrouter.ts` lines 213-220). -/
def DEFAULT_MODELS : List String :=
  ["anthropic/claude-sonnet-4",
   "anthropic/claude-3.5-sonnet",
   "anthropic/claude-3.5-haiku",
   "anthropic/claude-3.5-haiku-20241022",
   "anthropic/claude-3.5-sonnet-20241022",
   "anthropic/claude-3-opus-20240229"]

/-- `Set.prototype.add` on the insertion-ordered list model: adding a member
is a no-op, a new element is appended. -/
def setAdd (l : List String) (x : String) : List String :=
  if x ∈ l then l else l ++ [x]

/-- `options.additionalModels.map(trim).filter(nonempty)` (`openrouter.ts`
lines 370-372). -/
def cleanModels (additional : List String) : List String :=
  (additional.map jsTrim).filter fun m => m.toList.length > 0

/-- The `allModels` set of `startOpenRouterProxy` (`openrouter.ts` lines
366-373): the defaults, then the preferred model when given (and truthy),
then each trimmed nonempty additional entry. -/
def allModels (preferredModel : Option String) (additional : List String) :
    List String :=
  let s := DEFAULT_MODELS.foldl setAdd []
  let s :=
    match preferredModel with
    | some m => if m = "" then s else setAdd s m
    | none => s
  (cleanModels additional).foldl setAdd s

/-- Spec-side, for the refinement statement about iteration order: keep the
first occurrence of each element not already in `seen`, preserving the
input's order. -/
def dedupFirstAux (seen : List String) : List String → List String
  | [] => []
  | x :: xs =>
    if x ∈ seen then dedupFirstAux seen xs
    else x :: dedupFirstAux (x :: seen) xs

/-- Spec-side: first-occurrence deduplication of a list, preserving order.
`dedupFirst (defaults ++ preferred ++ additional)` spells out the spec's
"iteration order is insertion order (defaults first, then preferred, then
additional)". -/
def dedupFirst (l : List String) : List String :=
  dedupFirstAux [] l

/-- Spec-side: the preferred model as a (zero- or one-element) insertion
list — empty when absent or falsy. -/
def preferredList : Option String → List String
  | some m => if m = "" then [] else [m]
  | none => []

/-! ### Configuration rendering (`openrouter.ts` lines 356-406) -/

/-- Model of `value.replace(/"/g, '\"')` (`openrouter.ts` line 382).  In a
JavaScript single-quoted literal `'\"'` denotes the one-character string
`"`, so each double quote is replaced by a double quote: the replacement is
character-for-character. -/
def escapeQuotes (v : String) : String :=
  String.mk (v.toList.foldr
    (fun c acc => if c = '"' then '"' :: acc else c :: acc) [])

/-- One rendered header line of the per-model `extra_headers` YAML block
(`openrouter.ts` lines 379-382). -/
def headerYamlLine (key value : String) : String :=
  "        " ++ key ++ ": \"" ++ escapeQuotes value ++ "\""

/-- The joined `headerYaml` block (`openrouter.ts` lines 378-383). -/
def headerYamlOf (entries : List (String × String)) : String :=
  joinSep "\n" (entries.map fun p => headerYamlLine p.1 p.2)

/-- The `extra_headers:` section tail: the header block on following lines,
or an inline empty object (`openrouter.ts` lines 385-388). -/
def extraHeadersSectionOf (entries : List (String × String)) : String :=
  if entries.length > 0 then "\n" ++ headerYamlOf entries else " \x7b\x7d"

/-- One `model_list` entry (`openrouter.ts` lines 390-396). -/
def modelBlock (model baseUrl apiKey : String)
    (entries : List (String × String)) : String :=
  "  - model_name: \"" ++ model ++ "\"\n" ++
  "    litellm_params:\n" ++
  "      model: \"" ++ model ++ "\"\n" ++
  "      provider: openrouter\n" ++
  "      api_base: \"" ++ baseUrl ++ "\"\n" ++
  "      api_key: \"" ++ apiKey ++ "\"\n" ++
  "      extra_headers:" ++ extraHeadersSectionOf entries

/-- `modelListYaml` (`openrouter.ts` lines 375-398). -/
def modelListYaml (models : List String) (baseUrl apiKey : String)
    (entries : List (String × String)) : String :=
  joinSep "\n" (models.map fun m => modelBlock m baseUrl apiKey entries)

/-- The full `config.yaml` document (`openrouter.ts` lines 400-406). -/
def configDocument (models : List String) (baseUrl apiKey : String)
    (entries : List (String × String)) (masterKey : String) : String :=
  "model_list:\n" ++ modelListYaml models baseUrl apiKey entries ++
  "\n\ngeneral_settings:\n  master_key: \"" ++ masterKey ++
  "\"\n  stream_timeout: 600\n"

/-! ### The proxy supervisor `startOpenRouterProxy`
(`openrouter.ts` lines 337-453) -/

/-- `OpenRouterProxyOptions` (`openrouter.ts` lines 337-345). -/
structure OpenRouterProxyOptions where
  apiKey : String
  baseUrl : String
  siteUrl : Option String := none
  appTitle : Option String := none
  extraHeaders : Option String := none
  preferredModel : Option String := none
  additionalModels : Option (List String) := none
deriving Repr

/-- The master key minted at `openrouter.ts` line 358 from the random draw
`Math.random().toString(36).slice(2)`: the fixed recognisable prefix
followed by the random suffix; the upstream API key is not an input. -/
def masterKeyFor (randSuffix : String) : String :=
  "sk-litellm-proxy-" ++ randSuffix

/-- The base URL of the returned handle (`openrouter.ts` line 449). -/
def proxyBaseUrl (port : Nat) : String :=
  "http://127.0.0.1:" ++ natToStr port ++ "/anthropic"

/-- The `headerEntries` record of `startOpenRouterProxy` (`openrouter.ts`
lines 360-364): defaulted referer and title, overlaid by the parsed extra
headers (object-spread semantics: later same-key writes overwrite in
place). -/
def supervisorHeaderEntries (options : OpenRouterProxyOptions) :
    List (String × String) :=
  let base :=
    [("HTTP-Referer",
        match trimToOpt options.siteUrl with
        | some s => s
        | none => "https://github.com/anthropics"),
     ("X-Title",
        match trimToOpt options.appTitle with
        | some t => t
        | none => "Claude Code OpenRouter")]
  (parseHeaderLinesRecord options.extraHeaders).foldl
    (fun m p => recordSet m p.1 p.2) base

/-- The side-effecting steps of `startOpenRouterProxy`, in the order the
source awaits or performs them. -/
inductive ProxyStep where
  | allocatePort
  | createWorkDir
  | generateMasterKey
  | synthesizeConfig
  | writeConfigFile
  | installDependency
  | spawnProxy
  | waitReady
deriving DecidableEq, Repr

/-- The result of a successful `startOpenRouterProxy` run: the ordered step
trace together with the values it computes. -/
structure ProxyRun where
  events : List ProxyStep
  configText : String
  masterKey : String
  baseUrl : String
deriving Repr

/-- The success path of `startOpenRouterProxy` (`openrouter.ts` lines
347-453), parameterised by the kernel-assigned port and the random master-key
suffix.  The step trace records the source's execution order: port
allocation (line 356), temp dir (357), master key (358), configuration
synthesis (360-406), config-file write (408-409), dependency install (411),
spawn (424-431), readiness polling (442). -/
def startOpenRouterProxyRun (options : OpenRouterProxyOptions) (port : Nat)
    (randSuffix : String) : ProxyRun :=
  let masterKey := masterKeyFor randSuffix
  let headerEntries := supervisorHeaderEntries options
  let models :=
    allModels options.preferredModel
      (match options.additionalModels with
       | some l => l
       | none => [])
  let config := configDocument models options.baseUrl options.apiKey
    headerEntries masterKey
  { events := [.allocatePort, .createWorkDir, .generateMasterKey,
      .synthesizeConfig, .writeConfigFile, .installDependency, .spawnProxy,
      .waitReady],
    configText := config,
    masterKey := masterKey,
    baseUrl := proxyBaseUrl port }

/-! ### Readiness polling `waitForProxy` (`openrouter.ts` lines 320-335) -/

/-- What one `fetch` of `GET /health` can produce: a 2xx response, a non-2xx
response (`response.ok === false`), or a thrown network error. -/
inductive HealthResult where
  | ok
  | notOk
  | netError
deriving DecidableEq, Repr

/-- Outcome of the polling loop: ready at some attempt index, or the thrown
timeout error. -/
inductive WaitOutcome where
  | ready (attempt : Nat)
  | timedOut
deriving DecidableEq, Repr

/-- The polling loop of `waitForProxy`, with the health endpoint's behaviour
given as a response sequence indexed by attempt number.  The second
component accumulates the milliseconds spent in `delay(200)` calls: the
source sleeps 200ms after every non-`ok` attempt, including the last. -/
def waitLoop (responses : Nat → HealthResult) :
    Nat → Nat → Nat → WaitOutcome × Nat
  | 0, _, delayMs => (.timedOut, delayMs)
  | remaining + 1, attempt, delayMs =>
    if responses attempt = .ok then (.ready attempt, delayMs)
    else waitLoop responses remaining (attempt + 1) (delayMs + 200)

/-- `waitForProxy` (`openrouter.ts` lines 320-335): at most 30 attempts,
200ms apart, over the given response sequence. -/
def waitForProxy (responses : Nat → HealthResult) : WaitOutcome × Nat :=
  waitLoop responses 30 0 0

/-! ### Port allocation `getAvailablePort` (`openrouter.ts` lines 251-280) -/

/-- What one `server.listen(0, "127.0.0.1")` attempt can produce: the
`listening` event with the address reported back (`none` models a null or
non-object address, `some 0` a falsy port), or the `error` event. -/
inductive BindResult where
  | ok (addr : Option Nat)
  | err (msg : String)
deriving DecidableEq, Repr

/-- The observable outcome of `getAvailablePort`: the resolved port or the
rejection message, plus the number of bind attempts, the milliseconds spent
in the retry `setTimeout(, 100)` delays, and the number of sockets opened
and closed (each attempt creates one server and closes it on both the
listening and the error path). -/
structure PortRun where
  result : Except String Nat
  binds : Nat
  delayMs : Nat
  socketsOpened : Nat
  socketsClosed : Nat
deriving Repr

/-- The check `typeof address === "object" && address && address.port`
followed by resolve/reject (`openrouter.ts` lines 259-265). -/
def resolveAddr : Option Nat → Except String Nat
  | some p => if p ≠ 0 then .ok p else .error "Failed to determine proxy port"
  | none => .error "Failed to determine proxy port"

/-- The retry loop of `getAvailablePort`, with the kernel's behaviour given
as a bind-result sequence indexed by attempt number.  `remaining` counts the
retries still allowed (`attempts > 5` rejects, so 5 retries follow the
initial attempt). -/
def portLoop (binds : Nat → BindResult) :
    Nat → Nat → Nat → PortRun
  | 0, idx, delayMs =>
    match binds idx with
    | .ok addr =>
      { result := resolveAddr addr, binds := idx + 1, delayMs := delayMs,
        socketsOpened := idx + 1, socketsClosed := idx + 1 }
    | .err e =>
      { result := .error e, binds := idx + 1, delayMs := delayMs,
        socketsOpened := idx + 1, socketsClosed := idx + 1 }
  | remaining + 1, idx, delayMs =>
    match binds idx with
    | .ok addr =>
      { result := resolveAddr addr, binds := idx + 1, delayMs := delayMs,
        socketsOpened := idx + 1, socketsClosed := idx + 1 }
    | .err _ => portLoop binds remaining (idx + 1) (delayMs + 100)

/-- `getAvailablePort` (`openrouter.ts` lines 251-280) over the given
bind-result sequence: one initial attempt and up to 5 retries, 100ms apart;
past the retry budget the last bind error is propagated. -/
def getAvailablePort (binds : Nat → BindResult) : PortRun :=
  portLoop binds 5 0 0

/-! ### Lemmas: folds and association-list maps -/

/-- A property preserved by every step of a fold is preserved by the fold. -/
theorem foldl_invariant {α β : Type} {P : α → Prop} (step : α → β → α)
    (hstep : ∀ a b, P a → P (step a b)) :
    ∀ (l : List β) (a : α), P a → P (l.foldl step a) := by
  intro l
  induction l with
  | nil => intro a ha; exact ha
  | cons b t ih => intro a ha; exact ih (step a b) (hstep a b ha)

theorem mapLookup_mapSet_self (m : List (String × HeaderEntry)) (k : String)
    (v : HeaderEntry) : mapLookup (mapSet m k v) k = some v := by
  induction m with
  | nil => simp [mapSet, mapLookup]
  | cons p rest ih =>
    obtain ⟨k', v'⟩ := p
    by_cases h : k' = k
    · simp [mapSet, h, mapLookup]
    · simp [mapSet, h, mapLookup, ih]

theorem mapLookup_mapSet_ne (m : List (String × HeaderEntry))
    (kset k : String) (v : HeaderEntry) (h : kset ≠ k) :
    mapLookup (mapSet m kset v) k = mapLookup m k := by
  induction m with
  | nil => simp [mapSet, mapLookup, h]
  | cons p rest ih =>
    obtain ⟨k', v'⟩ := p
    by_cases h' : k' = kset
    · subst h'; simp [mapSet, mapLookup, h]
    · simp [mapSet, h', mapLookup, ih]

theorem mapKeys_mapSet (m : List (String × HeaderEntry)) (k : String)
    (v : HeaderEntry) :
    mapKeys (mapSet m k v) =
      if k ∈ mapKeys m then mapKeys m else mapKeys m ++ [k] := by
  induction m with
  | nil => simp [mapSet, mapKeys]
  | cons p rest ih =>
    obtain ⟨k', v'⟩ := p
    by_cases h : k' = k
    · subst h; simp [mapSet, mapKeys]
    · have hne : ¬k = k' := fun hk => h hk.symm
      simp only [mapKeys, List.map_cons] at ih ⊢
      simp only [mapSet, h, if_false, List.map_cons]
      rw [ih]
      by_cases hm : k ∈ List.map Prod.fst rest
      · simp [hm, hne]
      · simp [hm, hne]

theorem nodup_mapKeys_mapSet (m : List (String × HeaderEntry)) (k : String)
    (v : HeaderEntry) (h : (mapKeys m).Nodup) :
    (mapKeys (mapSet m k v)).Nodup := by
  rw [mapKeys_mapSet]
  by_cases hm : k ∈ mapKeys m
  · simpa [hm] using h
  · simp only [hm, if_false]
    simpa [List.nodup_append, hm] using h

theorem mem_mapSet (m : List (String × HeaderEntry)) (k : String)
    (v : HeaderEntry) (p : String × HeaderEntry) (hp : p ∈ mapSet m k v) :
    p ∈ m ∨ p = (k, v) := by
  induction m with
  | nil => simpa [mapSet] using hp
  | cons q rest ih =>
    obtain ⟨k', v'⟩ := q
    by_cases h : k' = k
    · simp only [mapSet, h, if_true] at hp
      rcases List.mem_cons.mp hp with h1 | h2
      · right; exact h1
      · left; exact List.mem_cons_of_mem _ h2
    · simp only [mapSet, h, if_false] at hp
      rcases List.mem_cons.mp hp with h1 | h2
      · left; simp [h1]
      · rcases ih h2 with h3 | h3
        · left; exact List.mem_cons_of_mem _ h3
        · right; exact h3

theorem mapLookup_foldl_mapSet_of_not_mem
    (l : List (String × HeaderEntry)) (k : String)
    (h : ∀ p ∈ l, p.1 ≠ k) :
    ∀ m0, mapLookup (l.foldl (fun m p => mapSet m p.1 p.2) m0) k =
      mapLookup m0 k := by
  induction l with
  | nil => intro m0; rfl
  | cons p t ih =>
    intro m0
    have hp : p.1 ≠ k := h p (List.mem_cons_self p t)
    have ht : ∀ q ∈ t, q.1 ≠ k := fun q hq => h q (List.mem_cons_of_mem _ hq)
    simp only [List.foldl_cons]
    rw [ih ht, mapLookup_mapSet_ne _ _ _ _ hp]

/-- Folding `mapSet` over an association list with pairwise-distinct keys:
the final binding at `k` is the list's own binding when the list has one,
and the starting map's binding otherwise. -/
theorem mapLookup_foldl_mapSet (l : List (String × HeaderEntry)) (k : String)
    (hnd : (l.map Prod.fst).Nodup) :
    ∀ m0, mapLookup (l.foldl (fun m p => mapSet m p.1 p.2) m0) k =
      match mapLookup l k with
      | some e => some e
      | none => mapLookup m0 k := by
  induction l with
  | nil => intro m0; rfl
  | cons p t ih =>
    intro m0
    obtain ⟨k1, e1⟩ := p
    simp only [List.map_cons, List.nodup_cons] at hnd
    obtain ⟨hk1, hndt⟩ := hnd
    by_cases h : k1 = k
    · subst h
      have ht : ∀ q ∈ t, q.1 ≠ k1 := by
        intro q hq hcontra
        exact hk1 (hcontra ▸ List.mem_map_of_mem Prod.fst hq)
      simp only [List.foldl_cons, mapLookup]
      rw [mapLookup_foldl_mapSet_of_not_mem t k1 ht,
        mapLookup_mapSet_self]
      simp
    · simp only [List.foldl_cons, mapLookup, h, if_false]
      rw [ih hndt, mapLookup_mapSet_ne _ _ _ _ h]

/-! ### Lemmas: parser invariants -/

theorem mapInv_nil : MapInv [] := by
  constructor
  · simp [mapKeys]
  · intro p hp; cases hp

theorem mapInv_mapSet (m : List (String × HeaderEntry)) (name value : String)
    (h : MapInv m) : MapInv (mapSet m (jsToLower name) ⟨name, value⟩) := by
  obtain ⟨hnd, hlow⟩ := h
  constructor
  · exact nodup_mapKeys_mapSet _ _ _ hnd
  · intro p hp
    rcases mem_mapSet _ _ _ _ hp with h1 | h1
    · exact hlow p h1
    · simp [h1]

theorem jsonBranchMap_inv (v : Js) : MapInv (jsonBranchMap v) := by
  refine foldl_invariant _ ?_ (jsEntries v) [] mapInv_nil
  intro m p hm
  cases p.2 with
  | str s =>
    dsimp only
    split
    · exact mapInv_mapSet m p.1 (jsTrim s) hm
    · exact hm
  | null => exact hm
  | bool b => exact hm
  | num t => exact hm
  | arr xs => exact hm
  | obj fs => exact hm

theorem lineParseMap_inv (t : String) : MapInv (lineParseMap t) := by
  refine foldl_invariant _ ?_ _ [] mapInv_nil
  intro m line hm
  dsimp only
  split
  · exact hm
  · split
    · exact hm
    · exact mapInv_mapSet m _ _ hm

/-- Both branches of the orchestrator's `parseHeaderLines` maintain the
case-insensitivity invariant. -/
theorem parseHeaderLinesMap_inv (raw : Option String) :
    MapInv (parseHeaderLinesMap raw) := by
  unfold parseHeaderLinesMap
  cases raw with
  | none => exact mapInv_nil
  | some r =>
    dsimp only
    split
    · exact mapInv_nil
    · split
      · exact mapInv_nil
      · split
        · split
          · exact jsonBranchMap_inv _
          · exact lineParseMap_inv _
        · exact lineParseMap_inv _

theorem recordKeys_recordSet (m : List (String × String)) (k v : String) :
    recordKeys (recordSet m k v) =
      if k ∈ recordKeys m then recordKeys m else recordKeys m ++ [k] := by
  induction m with
  | nil => simp [recordSet, recordKeys]
  | cons p rest ih =>
    obtain ⟨k', v'⟩ := p
    by_cases h : k' = k
    · subst h; simp [recordSet, recordKeys]
    · have hne : ¬k = k' := fun hk => h hk.symm
      simp only [recordKeys, List.map_cons] at ih ⊢
      simp only [recordSet, h, if_false, List.map_cons]
      rw [ih]
      by_cases hm : k ∈ List.map Prod.fst rest
      · simp [hm, hne]
      · simp [hm, hne]

theorem nodup_recordKeys_recordSet (m : List (String × String)) (k v : String)
    (h : (recordKeys m).Nodup) : (recordKeys (recordSet m k v)).Nodup := by
  rw [recordKeys_recordSet]
  by_cases hm : k ∈ recordKeys m
  · simpa [hm] using h
  · simp only [hm, if_false]
    simpa [List.nodup_append, hm] using h

theorem jsonBranchRecord_nodup (v : Js) :
    (recordKeys (jsonBranchRecord v)).Nodup := by
  refine foldl_invariant (P := fun m => (recordKeys m).Nodup) _ ?_
    (jsEntries v) [] (by simp [recordKeys])
  intro m p hm
  cases p.2 with
  | str s =>
    dsimp only
    split
    · exact nodup_recordKeys_recordSet m (jsTrim p.1) (jsTrim s) hm
    · exact hm
  | null => exact hm
  | bool b => exact hm
  | num t => exact hm
  | arr xs => exact hm
  | obj fs => exact hm

theorem lineParseRecord_nodup (t : String) :
    (recordKeys (lineParseRecord t)).Nodup := by
  refine foldl_invariant (P := fun m => (recordKeys m).Nodup) _ ?_
    _ [] (by simp [recordKeys])
  intro m rawLine hm
  dsimp only
  split
  · exact hm
  · split
    · exact hm
    · split
      · exact hm
      · exact nodup_recordKeys_recordSet m _ _ hm

/-- The supervisor's `parseHeaderLines` yields pairwise-distinct (exact,
case-sensitive) keys. -/
theorem parseHeaderLinesRecord_nodup (raw : Option String) :
    (recordKeys (parseHeaderLinesRecord raw)).Nodup := by
  unfold parseHeaderLinesRecord
  cases raw with
  | none => simp [recordKeys]
  | some r =>
    dsimp only
    split
    · simp [recordKeys]
    · split
      · simp [recordKeys]
      · split
        · exact jsonBranchRecord_nodup _
        · exact lineParseRecord_nodup _

/-! ### Lemmas: model-set synthesis -/

theorem mem_setAdd (l : List String) (x y : String) :
    y ∈ setAdd l x ↔ y ∈ l ∨ y = x := by
  unfold setAdd
  split
  · constructor
    · intro h; exact Or.inl h
    · intro h
      rcases h with h | h
      · exact h
      · subst h; assumption
  · simp

theorem nodup_setAdd (l : List String) (x : String) (h : l.Nodup) :
    (setAdd l x).Nodup := by
  unfold setAdd
  split
  · exact h
  · simp [List.nodup_append, h]
    intro hx
    simp_all

theorem mem_foldl_setAdd (l : List String) :
    ∀ (b : List String) (x : String),
      x ∈ l.foldl setAdd b ↔ x ∈ b ∨ x ∈ l := by
  induction l with
  | nil => intro b x; simp
  | cons y t ih =>
    intro b x
    simp only [List.foldl_cons]
    rw [ih]
    rw [mem_setAdd]
    constructor
    · rintro ((h | h) | h)
      · exact Or.inl h
      · subst h; simp
      · simp [h]
    · rintro (h | h)
      · exact Or.inl (Or.inl h)
      · rcases List.mem_cons.mp h with h | h
        · exact Or.inl (Or.inr h)
        · exact Or.inr h

theorem nodup_foldl_setAdd (l : List String) :
    ∀ b : List String, b.Nodup → (l.foldl setAdd b).Nodup := by
  induction l with
  | nil => intro b hb; exact hb
  | cons y t ih =>
    intro b hb
    exact ih _ (nodup_setAdd b y hb)

theorem foldl_setAdd_of_subset (l : List String) :
    ∀ b : List String, (∀ x ∈ l, x ∈ b) → l.foldl setAdd b = b := by
  induction l with
  | nil => intro b _; rfl
  | cons y t ih =>
    intro b hb
    have hy : y ∈ b := hb y (List.mem_cons_self y t)
    have : setAdd b y = b := by unfold setAdd; simp [hy]
    simp only [List.foldl_cons, this]
    exact ih b fun x hx => hb x (List.mem_cons_of_mem _ hx)

theorem foldl_setAdd_append (l : List String) :
    ∀ b : List String, ∃ t : List String, l.foldl setAdd b = b ++ t := by
  induction l with
  | nil => intro b; exact ⟨[], by simp⟩
  | cons y t ih =>
    intro b
    unfold setAdd
    by_cases hy : y ∈ b
    · simpa [List.foldl_cons, setAdd, hy] using ih b
    · obtain ⟨u, hu⟩ := ih (b ++ [y])
      exact ⟨[y] ++ u, by simpa [List.foldl_cons, setAdd, hy, List.append_assoc] using hu⟩

/-! ### Lemmas: string heads and tails -/

theorem listHasLead_self_append (a : List Char) :
    ∀ b : List Char, listHasLead a (a ++ b) = true := by
  induction a with
  | nil => intro b; rfl
  | cons c cs ih => intro b; simp [listHasLead, ih]

theorem strHasLead_append (p s : String) : strHasLead (p ++ s) p = true := by
  unfold strHasLead
  have : (p ++ s).toList = p.toList ++ s.toList := by
    simp [String.toList]
  rw [this]
  exact listHasLead_self_append _ _

theorem strHasTail_append (s t : String) : strHasTail (s ++ t) t = true := by
  unfold strHasTail
  have : (s ++ t).toList = s.toList ++ t.toList := by
    simp [String.toList]
  rw [this, List.reverse_append]
  exact listHasLead_self_append _ _

/-! ### Lemmas: readiness polling -/

theorem waitLoop_timedOut_iff (f : Nat → HealthResult) :
    ∀ (r a d : Nat),
      (waitLoop f r a d).1 = .timedOut ↔ ∀ i, i < r → f (a + i) ≠ .ok := by
  intro r
  induction r with
  | zero => intro a d; simp [waitLoop]
  | succ n ih =>
    intro a d
    by_cases h : f a = .ok
    · refine iff_of_false (by simp [waitLoop, h]) ?_
      intro hall
      exact hall 0 (Nat.succ_pos n) (by simpa using h)
    · rw [show waitLoop f (n + 1) a d = waitLoop f n (a + 1) (d + 200) by
        simp [waitLoop, h]]
      rw [ih (a + 1) (d + 200)]
      constructor
      · intro hall i hi
        cases i with
        | zero => simpa using h
        | succ j =>
          have hj := hall j (by omega)
          have : a + 1 + j = a + (j + 1) := by omega
          rwa [this] at hj
      · intro hall i hi
        have hj := hall (i + 1) (by omega)
        have : a + (i + 1) = a + 1 + i := by omega
        rwa [this] at hj

theorem waitLoop_ready (f : Nat → HealthResult) :
    ∀ (r a d x : Nat), (waitLoop f r a d).1 = .ready x →
      a ≤ x ∧ x < a + r ∧ f x = .ok ∧
      (∀ j, a ≤ j → j < x → f j ≠ .ok) ∧
      (waitLoop f r a d).2 = d + 200 * (x - a) := by
  intro r
  induction r with
  | zero => intro a d x h; simp [waitLoop] at h
  | succ n ih =>
    intro a d x h
    by_cases hok : f a = .ok
    · rw [show waitLoop f (n + 1) a d = (.ready a, d) by simp [waitLoop, hok]] at h ⊢
      have hx : x = a := by
        have := h
        simp at this
        omega
      subst hx
      refine ⟨Nat.le_refl _, by omega, hok, ?_, by simp⟩
      intro j hj1 hj2
      omega
    · rw [show waitLoop f (n + 1) a d = waitLoop f n (a + 1) (d + 200) by
        simp [waitLoop, hok]] at h ⊢
      obtain ⟨h1, h2, h3, h4, h5⟩ := ih (a + 1) (d + 200) x h
      refine ⟨by omega, by omega, h3, ?_, by omega⟩
      intro j hj1 hj2
      rcases Nat.eq_or_lt_of_le hj1 with hj | hj
      · subst hj; exact hok
      · exact h4 j (by omega) hj2

theorem waitLoop_timedOut_delay (f : Nat → HealthResult) :
    ∀ (r a d : Nat), (waitLoop f r a d).1 = .timedOut →
      (waitLoop f r a d).2 = d + 200 * r := by
  intro r
  induction r with
  | zero => intro a d _; simp [waitLoop]
  | succ n ih =>
    intro a d h
    by_cases hok : f a = .ok
    · simp [waitLoop, hok] at h
    · rw [show waitLoop f (n + 1) a d = waitLoop f n (a + 1) (d + 200) by
        simp [waitLoop, hok]] at h ⊢
      rw [ih (a + 1) (d + 200) h]
      omega

theorem waitLoop_congr (f g : Nat → HealthResult)
    (h : ∀ x, f x = .ok ↔ g x = .ok) :
    ∀ (r a d : Nat), waitLoop f r a d = waitLoop g r a d := by
  intro r
  induction r with
  | zero => intro a d; rfl
  | succ n ih =>
    intro a d
    by_cases hok : f a = .ok
    · have hg : g a = .ok := (h a).mp hok
      simp [waitLoop, hok, hg]
    · have hg : ¬g a = .ok := fun hga => hok ((h a).mpr hga)
      simp only [waitLoop, hok, if_false, hg]
      exact ih (a + 1) (d + 200)

/-! ### Lemmas: port allocation -/

theorem portLoop_ok (binds : Nat → BindResult) (idx : Nat)
    (addr : Option Nat) (h : binds idx = .ok addr) :
    ∀ (remaining d : Nat), portLoop binds remaining idx d =
      { result := resolveAddr addr, binds := idx + 1, delayMs := d,
        socketsOpened := idx + 1, socketsClosed := idx + 1 } := by
  intro remaining d
  cases remaining with
  | zero => simp [portLoop, h]
  | succ n => simp [portLoop, h]

theorem portLoop_err_base (binds : Nat → BindResult) (idx : Nat)
    (e : String) (h : binds idx = .err e) (d : Nat) :
    portLoop binds 0 idx d =
      { result := .error e, binds := idx + 1, delayMs := d,
        socketsOpened := idx + 1, socketsClosed := idx + 1 } := by
  simp [portLoop, h]

theorem portLoop_err_step (binds : Nat → BindResult) (idx : Nat)
    (e : String) (h : binds idx = .err e) (remaining d : Nat) :
    portLoop binds (remaining + 1) idx d =
      portLoop binds remaining (idx + 1) (d + 100) := by
  simp [portLoop, h]

/-- Consuming `i` consecutive bind failures advances the loop. -/
theorem portLoop_skip (binds : Nat → BindResult) :
    ∀ (i remaining idx d : Nat), i ≤ remaining →
      (∀ j, j < i → ∃ e, binds (idx + j) = .err e) →
      portLoop binds remaining idx d =
        portLoop binds (remaining - i) (idx + i) (d + 100 * i) := by
  intro i
  induction i with
  | zero => intro remaining idx d _ _; simp
  | succ n ih =>
    intro remaining idx d hle hj
    obtain ⟨e, he⟩ := hj 0 (Nat.succ_pos n)
    rw [show idx + 0 = idx by omega] at he
    obtain ⟨m, hm⟩ : ∃ m, remaining = m + 1 := ⟨remaining - 1, by omega⟩
    subst hm
    rw [portLoop_err_step binds idx e he m d]
    have hj' : ∀ j, j < n → ∃ e, binds (idx + 1 + j) = .err e := by
      intro j hjn
      obtain ⟨e', he'⟩ := hj (j + 1) (by omega)
      exact ⟨e', by rwa [show idx + (j + 1) = idx + 1 + j by omega] at he'⟩
    rw [ih m (idx + 1) (d + 100) (by omega) hj']
    congr 1 <;> omega

theorem portLoop_sockets (binds : Nat → BindResult) :
    ∀ (remaining idx d : Nat),
      (portLoop binds remaining idx d).socketsOpened =
        (portLoop binds remaining idx d).socketsClosed := by
  intro remaining
  induction remaining with
  | zero =>
    intro idx d
    cases h : binds idx with
    | ok addr => simp [portLoop, h]
    | err e => simp [portLoop, h]
  | succ n ih =>
    intro idx d
    cases h : binds idx with
    | ok addr => simp [portLoop, h]
    | err e =>
      rw [portLoop_err_step binds idx e h n d]
      exact ih (idx + 1) (d + 100)

/-! ## Claim theorems -/

/-- C1, counterexample: the claim asserts that the dependency-install step
always completes before the configuration file is written, but in
`startOpenRouterProxy` the config file is written (line 409) before
`installProxyDependency()` is awaited (line 411): on a concrete run the
install step does not precede the write step. -/
theorem install_before_write_fails :
    ¬ ((startOpenRouterProxyRun
          { apiKey := "sk-or-test", baseUrl := "https://openrouter.ai/api/v1" }
          8080 "abc123").events.indexOf ProxyStep.installDependency <
        (startOpenRouterProxyRun
          { apiKey := "sk-or-test", baseUrl := "https://openrouter.ai/api/v1" }
          8080 "abc123").events.indexOf ProxyStep.writeConfigFile) := by
  decide

/-- C1, amended: `startOpenRouterProxy` executes its steps in exactly the
order: configuration synthesis, then writing the config file, then
dependency ensure/install, then spawning the subordinate process, then
readiness polling; in particular the configuration file is always written
before the dependency-install step runs. -/
theorem supervisor_step_order (options : OpenRouterProxyOptions)
    (port : Nat) (randSuffix : String) :
    (startOpenRouterProxyRun options port randSuffix).events =
      [.allocatePort, .createWorkDir, .generateMasterKey, .synthesizeConfig,
       .writeConfigFile, .installDependency, .spawnProxy, .waitReady] ∧
    ((startOpenRouterProxyRun options port randSuffix).events.indexOf
        ProxyStep.synthesizeConfig <
      (startOpenRouterProxyRun options port randSuffix).events.indexOf
        ProxyStep.writeConfigFile) ∧
    ((startOpenRouterProxyRun options port randSuffix).events.indexOf
        ProxyStep.writeConfigFile <
      (startOpenRouterProxyRun options port randSuffix).events.indexOf
        ProxyStep.installDependency) ∧
    ((startOpenRouterProxyRun options port randSuffix).events.indexOf
        ProxyStep.installDependency <
      (startOpenRouterProxyRun options port randSuffix).events.indexOf
        ProxyStep.spawnProxy) ∧
    ((startOpenRouterProxyRun options port randSuffix).events.indexOf
        ProxyStep.spawnProxy <
      (startOpenRouterProxyRun options port randSuffix).events.indexOf
        ProxyStep.waitReady) := by
  have h : (startOpenRouterProxyRun options port randSuffix).events =
      [.allocatePort, .createWorkDir, .generateMasterKey, .synthesizeConfig,
       .writeConfigFile, .installDependency, .spawnProxy, .waitReady] := rfl
  refine ⟨h, ?_, ?_, ?_, ?_⟩ <;> (rw [h]; decide)

set_option maxRecDepth 100000 in
/-- C2, code bug: the spec requires header values to be rendered with
double quotes escaped for the config syntax, and line 382's
`value.replace(/"/g, '\"')` plainly intends that; but in JavaScript the
single-quoted literal `'\"'` is just `"`, so the replacement is the
identity and the quote is emitted verbatim.  At the extra header
`X-Test: say "hi"` the generated config contains the malformed quoted
scalar `X-Test: "say "hi""` and no backslash anywhere. -/
theorem quote_escaping_is_identity :
    escapeQuotes "say \"hi\"" = "say \"hi\"" ∧
    headerYamlLine "X-Test" "say \"hi\"" = "        X-Test: \"say \"hi\"\"" ∧
    strHasSub
      (startOpenRouterProxyRun
        { apiKey := "sk-or-test", baseUrl := "https://openrouter.ai/api/v1",
          extraHeaders := some "X-Test: say \"hi\"" }
        8080 "abc123").configText
      "X-Test: \"say \"hi\"\"" = true ∧
    strHasSub
      (startOpenRouterProxyRun
        { apiKey := "sk-or-test", baseUrl := "https://openrouter.ai/api/v1",
          extraHeaders := some "X-Test: say \"hi\"" }
        8080 "abc123").configText
      "\\" = false := by
  exact ⟨rfl, rfl, by decide, by decide⟩

/-- C3, counterexample: the claim asserts that the header parsing used by
*both* the orchestrator and the supervisor yields at most one entry per
case-insensitive name, with the example input containing `X-Title: a` and
`x-title: b`; but the supervisor's Record-version parser keys entries by
their exact (trimmed, not lower-cased) names, so that very input produces
two entries whose names differ only in case. -/
theorem record_parser_case_sensitive :
    parseHeaderLinesRecord (some "X-Title: a\nx-title: b") =
      [("X-Title", "a"), ("x-title", "b")] ∧
    (recordKeys (parseHeaderLinesRecord (some "X-Title: a\nx-title: b"))).map
        jsToLower = ["x-title", "x-title"] := by
  exact ⟨rfl, rfl⟩

/-- C3, amended: the orchestrator's Map-version parser yields at most one
entry per case-insensitive name — its keys are pairwise distinct and each
key is the lower-cased name of its entry — and later writes overwrite
earlier ones in place (the example input yields exactly one `x-title`
entry, holding the later value); the supervisor's Record-version parser
instead keys entries by exact name, so its keys are pairwise distinct only
case-sensitively. -/
theorem header_parser_key_invariants (raw : Option String) :
    (mapKeys (parseHeaderLinesMap raw)).Nodup ∧
    mapKeys (parseHeaderLinesMap raw) =
      (parseHeaderLinesMap raw).map (fun p => jsToLower p.2.name) ∧
    (recordKeys (parseHeaderLinesRecord raw)).Nodup ∧
    parseHeaderLinesMap (some "X-Title: a\nx-title: b") =
      [("x-title", ⟨"x-title", "b"⟩)] := by
  obtain ⟨hnd, hlow⟩ := parseHeaderLinesMap_inv raw
  refine ⟨hnd, ?_, parseHeaderLinesRecord_nodup raw, rfl⟩
  exact List.map_congr_left hlow

/-- C4, counterexample: the claim asserts that JSON-object parsing is
attempted exactly when the trimmed input starts with `{` and ends with
`}`; but the supervisor's Record-version parser calls `JSON.parse`
unconditionally, so the brace-free input `["a","b"]` is JSON-parsed (its
array entries become headers keyed by index) instead of being handed to
the line parser (which would find no colon and yield nothing). -/
theorem record_parser_json_unconditional :
    strHasLead (jsTrim "[\"a\",\"b\"]") "\x7b" = false ∧
    parseHeaderLinesRecord (some "[\"a\",\"b\"]") = [("0", "a"), ("1", "b")] ∧
    lineParseRecord (jsTrim "[\"a\",\"b\"]") = [] := by
  exact ⟨rfl, rfl, rfl⟩

/-- C4, amended: the orchestrator's Map-version parser attempts JSON
parsing exactly when the trimmed input starts with `{` and ends with `}`,
while the supervisor's Record-version parser attempts it on every nonempty
trimmed input; for both, JSON parse failure falls through to line-by-line
parsing instead of failing, so any otherwise-unparseable input yields an
(empty or partial) header map rather than an error. -/
theorem parse_dispatch (raw : String) :
    ((strHasLead (jsTrim raw) "\x7b" && strHasTail (jsTrim raw) "\x7d") = false →
      parseHeaderLinesMap (some raw) = lineParseMap (jsTrim raw)) ∧
    (jsonParse (jsTrim raw) = none →
      parseHeaderLinesMap (some raw) = lineParseMap (jsTrim raw) ∧
      parseHeaderLinesRecord (some raw) = lineParseRecord (jsTrim raw)) ∧
    (jsTrim raw ≠ "" → ∀ v, jsonParse (jsTrim raw) = some v →
      parseHeaderLinesRecord (some raw) = jsonBranchRecord v) ∧
    ((strHasLead (jsTrim raw) "\x7b" && strHasTail (jsTrim raw) "\x7d") = true →
      ∀ v, jsonParse (jsTrim raw) = some v →
      parseHeaderLinesMap (some raw) = jsonBranchMap v) := by
  have hempty : ∀ s : String, s.toList.length = 0 → s = "" := by
    intro s hs
    cases s with
    | mk data =>
      cases data with
      | nil => rfl
      | cons c cs => simp [String.toList] at hs
  have htrimnil : jsTrim "" = "" := rfl
  have hlineMapNil : lineParseMap "" = [] := rfl
  have hlineRecNil : lineParseRecord "" = [] := rfl
  refine ⟨?_, ?_, ?_, ?_⟩
  · intro hgate
    by_cases h0 : raw = ""
    · subst h0; rfl
    · unfold parseHeaderLinesMap
      simp only [h0, if_false]
      by_cases h1 : (jsTrim raw).toList.length = 0
      · rw [if_pos h1, hempty _ h1, hlineMapNil]
      · rw [if_neg h1, if_neg (by simp [hgate])]
  · intro hjson
    constructor
    · by_cases h0 : raw = ""
      · subst h0; rfl
      · unfold parseHeaderLinesMap
        simp only [h0, if_false]
        by_cases h1 : (jsTrim raw).toList.length = 0
        · rw [if_pos h1, hempty _ h1, hlineMapNil]
        · rw [if_neg h1]
          split
          · rw [hjson]
          · rfl
    · by_cases h0 : raw = ""
      · subst h0; rfl
      · unfold parseHeaderLinesRecord
        simp only [h0, if_false]
        by_cases h1 : (jsTrim raw).toList.length = 0
        · rw [if_pos h1, hempty _ h1, hlineRecNil]
        · rw [if_neg h1, hjson]
  · intro hne v hv
    have h0 : raw ≠ "" := by
      intro h; exact hne (h ▸ htrimnil)
    have h1 : ¬(jsTrim raw).toList.length = 0 := by
      intro h; exact hne (hempty _ h)
    unfold parseHeaderLinesRecord
    simp only [h0, if_false, h1, hv]
  · intro hgate v hv
    have h0 : raw ≠ "" := by
      intro h
      subst h
      rw [htrimnil] at hgate
      exact absurd hgate (by decide)
    have h1 : ¬(jsTrim raw).toList.length = 0 := by
      intro h
      rw [hempty _ h] at hgate
      exact absurd hgate (by decide)
    unfold parseHeaderLinesMap
    simp only [h0, if_false, h1, hgate, if_true, hv]

/-- C4, witness: the dispatch theorem at a colon line (no braces, JSON
parse fails, line parsing is used) and at a JSON object (braces, JSON
parse succeeds and is used). -/
theorem parse_dispatch_witness :
    parseHeaderLinesMap (some "X-Custom: One") =
      lineParseMap (jsTrim "X-Custom: One") ∧
    parseHeaderLinesRecord (some "X-Custom: One") =
      lineParseRecord (jsTrim "X-Custom: One") ∧
    parseHeaderLinesMap (some "\x7b\"X-Test\":\"Value\"\x7d") =
      jsonBranchMap (.obj [("X-Test", .str "Value")]) := by
  refine ⟨((parse_dispatch "X-Custom: One").2.1 rfl).1,
    ((parse_dispatch "X-Custom: One").2.1 rfl).2, ?_⟩
  exact (parse_dispatch "\x7b\"X-Test\":\"Value\"\x7d").2.2.2 rfl
    (.obj [("X-Test", .str "Value")]) rfl

/-- C5: in direct mode the merged header set follows base ← custom-existing
← Authorization-injection ← extra-headers with last write wins: the
injected `Authorization: Bearer <key>` is the final binding whenever the
extra headers carry no `Authorization` directive, any extra-headers
`Authorization` directive wins over the injected one, and a pre-existing
`X-Test: Value` header keeps its position ahead of the newly appended
`Authorization` line (Scenario C, matching the repository's own test). -/
theorem direct_mode_merge_order (custom siteUrl appTitle extra : Option String)
    (key : String) :
    (mapLookup (parseHeaderLinesMap extra) "authorization" = none →
      mapLookup (directModeHeaders custom key siteUrl appTitle extra)
        "authorization" = some ⟨"Authorization", "Bearer " ++ key⟩) ∧
    (∀ e, mapLookup (parseHeaderLinesMap extra) "authorization" = some e →
      mapLookup (directModeHeaders custom key siteUrl appTitle extra)
        "authorization" = some e) ∧
    directModeHeaderString (some "X-Test: Value") "abc123" none none none =
      "X-Test: Value\nAuthorization: Bearer abc123" := by
  have hbefore : ∀ m : List (String × HeaderEntry),
      mapLookup
        (match trimToOpt appTitle with
          | some title => setHeader m "X-Title" title
          | none => m) "authorization" = mapLookup m "authorization" := by
    intro m
    cases trimToOpt appTitle with
    | none => rfl
    | some title =>
      exact mapLookup_mapSet_ne m (jsToLower "X-Title") "authorization" _
        (by decide)
  have hbefore2 : ∀ m : List (String × HeaderEntry),
      mapLookup
        (match trimToOpt siteUrl with
          | some referer => setHeader m "HTTP-Referer" referer
          | none => m) "authorization" = mapLookup m "authorization" := by
    intro m
    cases trimToOpt siteUrl with
    | none => rfl
    | some referer =>
      exact mapLookup_mapSet_ne m (jsToLower "HTTP-Referer") "authorization" _
        (by decide)
  have hpre : mapLookup
      (match trimToOpt appTitle with
        | some title =>
            setHeader
              (match trimToOpt siteUrl with
                | some referer =>
                    setHeader (setHeader (parseHeaderLinesMap custom)
                      "Authorization" ("Bearer " ++ key)) "HTTP-Referer" referer
                | none => setHeader (parseHeaderLinesMap custom)
                    "Authorization" ("Bearer " ++ key)) "X-Title" title
        | none =>
            match trimToOpt siteUrl with
            | some referer =>
                setHeader (setHeader (parseHeaderLinesMap custom)
                  "Authorization" ("Bearer " ++ key)) "HTTP-Referer" referer
            | none => setHeader (parseHeaderLinesMap custom)
                "Authorization" ("Bearer " ++ key)) "authorization" =
      some ⟨"Authorization", "Bearer " ++ key⟩ := by
    rw [hbefore, hbefore2]
    exact mapLookup_mapSet_self (parseHeaderLinesMap custom)
      (jsToLower "Authorization") _
  have hfold := mapLookup_foldl_mapSet (parseHeaderLinesMap extra)
    "authorization" (parseHeaderLinesMap_inv extra).1
  refine ⟨?_, ?_, rfl⟩
  · intro hnone
    unfold directModeHeaders
    rw [hfold, hnone]
    exact hpre
  · intro e he
    unfold directModeHeaders
    rw [hfold, he]

/-- C5, witness: the injected `Authorization` overrides a pre-existing
custom `Authorization` directive, and an extra-headers `Authorization`
overrides the injected one. -/
theorem direct_mode_merge_order_witness :
    mapLookup (directModeHeaders (some "Authorization: Basic xyz") "abc123"
      none none none) "authorization" =
      some ⟨"Authorization", "Bearer abc123"⟩ ∧
    mapLookup (directModeHeaders none "open-key" none none
      (some "Authorization: Bearer override")) "authorization" =
      some ⟨"Authorization", "Bearer override"⟩ := by
  constructor
  · exact (direct_mode_merge_order (some "Authorization: Basic xyz") none none
      none "abc123").1 rfl
  · exact (direct_mode_merge_order none none none
      (some "Authorization: Bearer override") "open-key").2.1
      ⟨"Authorization", "Bearer override"⟩ rfl

/-- C6: on a successful proxied run, the returned handle's base URL ends
with `/anthropic`; the master key equals the fixed recognisable prefix
`sk-litellm-proxy-` followed by the random draw — so it is non-empty,
carries the prefix, depends only on the random draw and never on the
upstream key — and it differs from any upstream API key that does not
itself carry the reserved prefix. -/
theorem proxy_handle_properties (options : OpenRouterProxyOptions)
    (port : Nat) (randSuffix : String) :
    strHasTail (startOpenRouterProxyRun options port randSuffix).baseUrl
      "/anthropic" = true ∧
    (startOpenRouterProxyRun options port randSuffix).masterKey =
      masterKeyFor randSuffix ∧
    masterKeyFor randSuffix = "sk-litellm-proxy-" ++ randSuffix ∧
    (startOpenRouterProxyRun options port randSuffix).masterKey ≠ "" ∧
    strHasLead (startOpenRouterProxyRun options port randSuffix).masterKey
      "sk-litellm-proxy-" = true ∧
    (strHasLead options.apiKey "sk-litellm-proxy-" = false →
      (startOpenRouterProxyRun options port randSuffix).masterKey ≠
        options.apiKey) := by
  have hbase : (startOpenRouterProxyRun options port randSuffix).baseUrl =
      ("http://127.0.0.1:" ++ natToStr port) ++ "/anthropic" := by
    show proxyBaseUrl port = _
    unfold proxyBaseUrl
    rw [String.append_assoc]
  have hkey : (startOpenRouterProxyRun options port randSuffix).masterKey =
      masterKeyFor randSuffix := rfl
  have hlead : strHasLead (masterKeyFor randSuffix) "sk-litellm-proxy-" =
      true := strHasLead_append "sk-litellm-proxy-" randSuffix
  refine ⟨?_, hkey, rfl, ?_, ?_, ?_⟩
  · rw [hbase]
    exact strHasTail_append _ _
  · rw [hkey]
    intro h
    have hdata := congrArg String.data h
    simp only [masterKeyFor] at hdata
    rw [show ("sk-litellm-proxy-" ++ randSuffix).data =
      "sk-litellm-proxy-".data ++ randSuffix.data from String.data_append _ _]
      at hdata
    simp at hdata
  · rw [hkey]; exact hlead
  · intro hapi heq
    rw [hkey] at heq
    rw [← heq] at hapi
    rw [hlead] at hapi
    exact absurd hapi (by decide)

/-- C6, witness: with a realistic OpenRouter upstream key (which starts
with `sk-or-`, not the proxy's reserved prefix) the generated master key
differs from the upstream key. -/
theorem proxy_handle_properties_witness :
    (startOpenRouterProxyRun
      { apiKey := "sk-or-v1-upstream", baseUrl := "https://openrouter.ai/api/v1" }
      51234 "9xz3kq").masterKey ≠ "sk-or-v1-upstream" :=
  (proxy_handle_properties
    { apiKey := "sk-or-v1-upstream", baseUrl := "https://openrouter.ai/api/v1" }
    51234 "9xz3kq").2.2.2.2.2 (by decide)

/-- C7: the readiness probe polls at a fixed 200ms interval for at most 30
attempts and then fails with the timeout outcome; for every response
sequence it either times out (exactly when no attempt below 30 returns a
2xx response, having slept the full 6000ms budget) or returns ready at the
first successful attempt, having slept 200ms per preceding failed attempt;
either way the accumulated delay never exceeds 6000ms, and network errors
during polling are swallowed and retried (only an `ok` response stops the
loop early). -/
theorem wait_for_proxy_terminates (responses : Nat → HealthResult) :
    ((waitForProxy responses).1 = .timedOut ↔
      ∀ a, a < 30 → responses a ≠ .ok) ∧
    ((waitForProxy responses).1 = .timedOut →
      (waitForProxy responses).2 = 6000) ∧
    (∀ a, (waitForProxy responses).1 = .ready a →
      a < 30 ∧ responses a = .ok ∧ (∀ b, b < a → responses b ≠ .ok) ∧
      (waitForProxy responses).2 = 200 * a) ∧
    (waitForProxy responses).2 ≤ 6000 := by
  have hiff := waitLoop_timedOut_iff responses 30 0 0
  have hiff' : (waitForProxy responses).1 = .timedOut ↔
      ∀ a, a < 30 → responses a ≠ .ok := by
    rw [show waitForProxy responses = waitLoop responses 30 0 0 from rfl, hiff]
    constructor
    · intro h a ha; simpa using h a ha
    · intro h i hi; simpa using h i hi
  have hready : ∀ a, (waitForProxy responses).1 = .ready a →
      a < 30 ∧ responses a = .ok ∧ (∀ b, b < a → responses b ≠ .ok) ∧
      (waitForProxy responses).2 = 200 * a := by
    intro a ha
    obtain ⟨h1, h2, h3, h4, h5⟩ := waitLoop_ready responses 30 0 0 a ha
    refine ⟨by omega, h3, ?_, by simpa using h5⟩
    intro b hb
    exact h4 b (Nat.zero_le b) hb
  refine ⟨hiff', ?_, hready, ?_⟩
  · intro h
    simpa using waitLoop_timedOut_delay responses 30 0 0 h
  · cases hout : (waitForProxy responses).1 with
    | timedOut =>
      rw [(by simpa using waitLoop_timedOut_delay responses 30 0 0 hout :
        (waitForProxy responses).2 = 6000)]
    | ready a =>
      obtain ⟨h1, _, _, h4⟩ := hready a hout
      omega

/-- C7, witness: a sequence whose first success is attempt 2 yields the
ready outcome with 400ms of accumulated delay, and an endpoint that never
answers yields the timeout outcome. -/
theorem wait_for_proxy_terminates_witness :
    2 < 30 ∧
    (waitForProxy (fun a => if a = 2 then .ok else .netError)).2 = 200 * 2 ∧
    (waitForProxy (fun _ => HealthResult.notOk)).1 = .timedOut := by
  refine ⟨((wait_for_proxy_terminates
      (fun a => if a = 2 then .ok else .netError)).2.2.1 2 rfl).1,
    ((wait_for_proxy_terminates
      (fun a => if a = 2 then .ok else .netError)).2.2.1 2 rfl).2.2.2, ?_⟩
  exact (wait_for_proxy_terminates (fun _ => HealthResult.notOk)).1.mpr
    (by decide)

/-- C8: port allocation retries a failed bind up to 5 times with a fixed
100ms delay between attempts (6 binds in all); once the retry budget is
exceeded it fails by propagating the last bind error, and a bind that
succeeds with a usable kernel-assigned port resolves with that port.  On
every path each socket opened is also closed. -/
theorem get_available_port_retry (binds : Nat → BindResult) :
    ((∀ j, j < 5 → ∃ e, binds j = .err e) →
      ∀ e, binds 5 = .err e →
        getAvailablePort binds =
          { result := .error e, binds := 6, delayMs := 500,
            socketsOpened := 6, socketsClosed := 6 }) ∧
    (∀ i p, i ≤ 5 → (∀ j, j < i → ∃ e, binds j = .err e) →
      binds i = .ok (some p) → p ≠ 0 →
      getAvailablePort binds =
        { result := .ok p, binds := i + 1, delayMs := 100 * i,
          socketsOpened := i + 1, socketsClosed := i + 1 }) ∧
    (getAvailablePort binds).socketsOpened =
      (getAvailablePort binds).socketsClosed := by
  refine ⟨?_, ?_, portLoop_sockets binds 5 0 0⟩
  · intro hj e he
    have hskip := portLoop_skip binds 5 5 0 0 (Nat.le_refl 5)
      (by intro j hj5; simpa using hj j hj5)
    rw [show getAvailablePort binds = portLoop binds 5 0 0 from rfl, hskip]
    simpa using portLoop_err_base binds 5 e he 500
  · intro i p hi hj hok hp
    have hskip := portLoop_skip binds i 5 0 0 hi
      (by intro j hji; simpa using hj j hji)
    simp only [Nat.zero_add] at hskip
    rw [show getAvailablePort binds = portLoop binds 5 0 0 from rfl, hskip,
      portLoop_ok binds i (some p) hok (5 - i) (100 * i)]
    simp [resolveAddr, hp]

/-- C8, witness: two transient bind failures followed by a successful bind
resolve with the assigned port after 200ms of retry delay and three
opened-and-closed sockets; an always-failing kernel exhausts the budget of
6 binds and propagates the last error after 500ms of retry delay. -/
theorem get_available_port_retry_witness :
    getAvailablePort (fun j => if j < 2 then .err "EADDRINUSE"
        else .ok (some 43210)) =
      { result := .ok 43210, binds := 3, delayMs := 200,
        socketsOpened := 3, socketsClosed := 3 } ∧
    getAvailablePort (fun _ => .err "EACCES") =
      { result := .error "EACCES", binds := 6, delayMs := 500,
        socketsOpened := 6, socketsClosed := 6 } := by
  constructor
  · have h := (get_available_port_retry
        (fun j => if j < 2 then .err "EADDRINUSE" else .ok (some 43210))).2.1
      2 43210 (by omega)
      (fun j hj => ⟨"EADDRINUSE", by simp [hj]⟩) (by simp) (by omega)
    simpa using h
  · exact (get_available_port_retry (fun _ => .err "EACCES")).1
      (fun j _ => ⟨"EACCES", rfl⟩) "EACCES" rfl

/-- `allModels` with no preferred model: fold the cleaned additional list
onto the default list. -/
theorem allModels_none (additional : List String) :
    allModels none additional =
      (cleanModels additional).foldl setAdd DEFAULT_MODELS := by
  show (cleanModels additional).foldl setAdd
    (DEFAULT_MODELS.foldl setAdd []) = _
  rw [show DEFAULT_MODELS.foldl setAdd [] = DEFAULT_MODELS by decide]

/-- `allModels` with a nonempty preferred model: fold the cleaned
additional list onto the defaults extended by the preferred model. -/
theorem allModels_some (m : String) (hm : ¬m = "") (additional : List String) :
    allModels (some m) additional =
      (cleanModels additional).foldl setAdd (setAdd DEFAULT_MODELS m) := by
  show (cleanModels additional).foldl setAdd
    (if m = "" then DEFAULT_MODELS.foldl setAdd []
      else setAdd (DEFAULT_MODELS.foldl setAdd []) m) = _
  rw [if_neg hm, show DEFAULT_MODELS.foldl setAdd [] = DEFAULT_MODELS by decide]

/-- `allModels` with an empty preferred model (falsy in the source's
`if (options.preferredModel)` test): the preferred model is skipped. -/
theorem allModels_some_empty (additional : List String) :
    allModels (some "") additional =
      (cleanModels additional).foldl setAdd DEFAULT_MODELS := by
  show (cleanModels additional).foldl setAdd
    (if "" = "" then DEFAULT_MODELS.foldl setAdd []
      else setAdd (DEFAULT_MODELS.foldl setAdd []) "") = _
  rw [if_pos rfl, show DEFAULT_MODELS.foldl setAdd [] = DEFAULT_MODELS by decide]

/-- `dedupFirstAux` only tests membership of `seen`, so seen-lists with the
same members act identically. -/
theorem dedupFirstAux_congr :
    ∀ (l s1 s2 : List String), (∀ y, y ∈ s1 ↔ y ∈ s2) →
      dedupFirstAux s1 l = dedupFirstAux s2 l := by
  intro l
  induction l with
  | nil => intro s1 s2 _; rfl
  | cons x xs ih =>
    intro s1 s2 h
    unfold dedupFirstAux
    by_cases hx : x ∈ s1
    · rw [if_pos hx, if_pos ((h x).mp hx)]
      exact ih s1 s2 h
    · rw [if_neg hx, if_neg (fun hx2 => hx ((h x).mpr hx2))]
      rw [ih (x :: s1) (x :: s2) (by intro y; simp [h y])]

/-- Folding the source's `Set.prototype.add` over a list appends exactly the
first occurrences of the elements not already present, in the list's own
order. -/
theorem foldl_setAdd_eq_dedupFirstAux (l : List String) :
    ∀ b : List String, l.foldl setAdd b = b ++ dedupFirstAux b l := by
  induction l with
  | nil => intro b; simp [dedupFirstAux]
  | cons x xs ih =>
    intro b
    simp only [List.foldl_cons]
    have hstep : dedupFirstAux b (x :: xs) =
        if x ∈ b then dedupFirstAux b xs
        else x :: dedupFirstAux (x :: b) xs := rfl
    by_cases hx : x ∈ b
    · rw [show setAdd b x = b from by unfold setAdd; rw [if_pos hx],
        hstep, if_pos hx]
      exact ih b
    · rw [show setAdd b x = b ++ [x] from by unfold setAdd; rw [if_neg hx]]
      rw [ih (b ++ [x])]
      rw [dedupFirstAux_congr xs (b ++ [x]) (x :: b)
        (by intro y; simp [List.mem_append, List.mem_cons]; tauto)]
      rw [hstep, if_neg hx, List.append_assoc]
      rfl

/-- First-occurrence deduplication coincides with the source's insertion
fold started from the empty set. -/
theorem dedupFirst_eq_foldl (l : List String) :
    dedupFirst l = l.foldl setAdd [] := by
  rw [foldl_setAdd_eq_dedupFirstAux l []]
  rfl

/-- C9: the synthesized model set has pairwise-distinct identifiers; it is
exactly the first-occurrence deduplication of the ordered concatenation
"defaults, then the preferred model if given (and truthy), then each
trimmed non-empty additional entry" — so it iterates in that insertion
order, with the defaults as the initial segment (as witnessed by a
concrete run in which the preferred model precedes the additional entries
and a duplicate additional entry collapses onto the preferred model's
earlier position); its members are exactly the defaults, the preferred
model, and the cleaned additional entries; and synthesis is idempotent and
order-stable — re-adding the cleaned additional list changes nothing, and
identical inputs yield the identical ordered list. -/
theorem model_set_synthesis (preferred : Option String)
    (additional : List String) :
    (allModels preferred additional).Nodup ∧
    allModels preferred additional =
      dedupFirst (DEFAULT_MODELS ++ preferredList preferred ++
        cleanModels additional) ∧
    allModels (some "custom/preferred")
        ["  extra/one ", "custom/preferred", "", "extra/two"] =
      DEFAULT_MODELS ++ ["custom/preferred", "extra/one", "extra/two"] ∧
    (∃ t, allModels preferred additional = DEFAULT_MODELS ++ t) ∧
    (∀ x, x ∈ allModels preferred additional ↔
      (x ∈ DEFAULT_MODELS ∨
        (∃ m, preferred = some m ∧ ¬m = "" ∧ x = m) ∨
        x ∈ cleanModels additional)) ∧
    (cleanModels additional).foldl setAdd (allModels preferred additional) =
      allModels preferred additional ∧
    allModels preferred additional = allModels preferred additional := by
  have hdefnd : DEFAULT_MODELS.Nodup := by decide
  have hmem : ∀ x, x ∈ allModels preferred additional ↔
      (x ∈ DEFAULT_MODELS ∨
        (∃ m, preferred = some m ∧ ¬m = "" ∧ x = m) ∨
        x ∈ cleanModels additional) := by
    intro x
    cases preferred with
    | none =>
      rw [allModels_none, mem_foldl_setAdd]
      simp
    | some m =>
      by_cases hm : m = ""
      · subst hm
        rw [allModels_some_empty, mem_foldl_setAdd]
        simp
      · rw [allModels_some m hm, mem_foldl_setAdd, mem_setAdd]
        simp only [Option.some.injEq]
        constructor
        · rintro ((h | h) | h)
          · exact Or.inl h
          · exact Or.inr (Or.inl ⟨m, rfl, hm, h⟩)
          · exact Or.inr (Or.inr h)
        · rintro (h | ⟨m', hm', hne, hx⟩ | h)
          · exact Or.inl (Or.inl h)
          · exact Or.inl (Or.inr (by rw [hx, ← hm']))
          · exact Or.inr h
  refine ⟨?_, ?_, by decide, ?_, hmem, ?_, rfl⟩
  case refine_2 =>
    rw [dedupFirst_eq_foldl, List.foldl_append, List.foldl_append,
      show List.foldl setAdd [] DEFAULT_MODELS = DEFAULT_MODELS by decide]
    cases preferred with
    | none =>
      rw [allModels_none]
      rfl
    | some m =>
      by_cases hm : m = ""
      · subst hm
        rw [allModels_some_empty]
        rfl
      · rw [allModels_some m hm,
          show preferredList (some m) = [m] from by
            rw [show preferredList (some m) =
              (if m = "" then [] else [m]) from rfl, if_neg hm]]
        rfl
  · cases preferred with
    | none =>
      rw [allModels_none]
      exact nodup_foldl_setAdd _ _ hdefnd
    | some m =>
      by_cases hm : m = ""
      · subst hm
        rw [allModels_some_empty]
        exact nodup_foldl_setAdd _ _ hdefnd
      · rw [allModels_some m hm]
        exact nodup_foldl_setAdd _ _ (nodup_setAdd _ m hdefnd)
  · cases preferred with
    | none =>
      rw [allModels_none]
      exact foldl_setAdd_append _ _
    | some m =>
      by_cases hm : m = ""
      · subst hm
        rw [allModels_some_empty]
        exact foldl_setAdd_append _ _
      · rw [allModels_some m hm]
        by_cases hmm : m ∈ DEFAULT_MODELS
        · rw [show setAdd DEFAULT_MODELS m = DEFAULT_MODELS from by
            unfold setAdd; rw [if_pos hmm]]
          exact foldl_setAdd_append _ _
        · rw [show setAdd DEFAULT_MODELS m = DEFAULT_MODELS ++ [m] from by
            unfold setAdd; rw [if_neg hmm]]
          obtain ⟨t, ht⟩ := foldl_setAdd_append (cleanModels additional)
            (DEFAULT_MODELS ++ [m])
          exact ⟨[m] ++ t, by rw [ht, List.append_assoc]⟩
  · refine foldl_setAdd_of_subset _ _ ?_
    intro x hx
    exact (hmem x).mpr (Or.inr (Or.inr hx))

/-- C10: during readiness polling a non-2xx health response is treated
exactly like a thrown network error: the loop's behaviour depends only on
which attempts return a 2xx response (swapping `notOk` and `netError`
pointwise changes nothing), and when no attempt within the 30-attempt
ceiling succeeds the probe fails with the timeout outcome — the outcome
type has no separate "unhealthy response" error. -/
theorem unhealthy_response_like_network_error
    (f g : Nat → HealthResult) :
    ((∀ a, f a = .ok ↔ g a = .ok) → waitForProxy f = waitForProxy g) ∧
    ((∀ a, a < 30 → f a ≠ .ok) → (waitForProxy f).1 = .timedOut) := by
  constructor
  · intro h
    exact waitLoop_congr f g h 30 0 0
  · intro h
    rw [show waitForProxy f = waitLoop f 30 0 0 from rfl,
      waitLoop_timedOut_iff f 30 0 0]
    intro i hi
    simpa using h i hi

/-- C10, witness: an endpoint answering 30 consecutive non-2xx responses
behaves identically to one throwing 30 consecutive network errors, and
both runs end in the timeout outcome. -/
theorem unhealthy_response_like_network_error_witness :
    waitForProxy (fun _ => HealthResult.notOk) =
      waitForProxy (fun _ => HealthResult.netError) ∧
    (waitForProxy (fun _ => HealthResult.netError)).1 = .timedOut := by
  constructor
  · exact (unhealthy_response_like_network_error
      (fun _ => HealthResult.notOk) (fun _ => HealthResult.netError)).1
      (fun a => by decide)
  · exact (unhealthy_response_like_network_error
      (fun _ => HealthResult.netError) (fun _ => HealthResult.notOk)).2
      (by decide)

end OpenRouter
